import Mathlib

/-!
Verification of the advocates search API (`src/app/api/advocates/route.ts`).

Strings are modelled as `List Char`.  The request handler `GET` is embedded as
a pure function from (current time, record store, cache state, request) to
(response, new cache state, list of effects), where the effect list records
every cache lookup and every database round trip the handler performs.
Caching (`unstable_cache` with `revalidate: 60`) is modelled as an explicit
association list from keys to (stored-at time, value).

Numeric parsing (`Number(...)` in JS), `ILIKE` matching, and regular-expression
tests are embedded over ASCII case folding, which covers the deny-list
patterns and search strings this route deals with.
-/

namespace AdvocatesApi

/-- JS `\s` / `String.trim` whitespace class (WhiteSpace ∪ LineTerminator). -/
def isJsWhitespace (c : Char) : Bool :=
  let n := c.toNat
  (9 ≤ n && n ≤ 13) || n == 32 || n == 0xA0 || n == 0x1680 ||
  (0x2000 ≤ n && n ≤ 0x200A) || n == 0x2028 || n == 0x2029 ||
  n == 0x202F || n == 0x205F || n == 0x3000 || n == 0xFEFF

/-- The characters removed by `query.replace(/[\x00-\x1F\x7F]/g, '')`. -/
def isControlChar (c : Char) : Bool :=
  c.toNat ≤ 0x1F || c.toNat == 0x7F

/-- Drop trailing whitespace (the right half of JS `String.trim`). -/
def dropTrailingWs : List Char → List Char
  | [] => []
  | c :: rest =>
    let r := dropTrailingWs rest
    if r.isEmpty && isJsWhitespace c then [] else c :: r

/-- JS `String.prototype.trim`: drop leading and trailing whitespace. -/
def jsTrim (l : List Char) : List Char :=
  dropTrailingWs (l.dropWhile isJsWhitespace)

/-- `query.replace(/[\x00-\x1F\x7F]/g, '')`. -/
def stripControl (l : List Char) : List Char :=
  l.filter (fun c => !isControlChar c)

theorem length_dropWhile_le (p : Char → Bool) (l : List Char) :
    (l.dropWhile p).length ≤ l.length := by
  induction l with
  | nil => simp [List.dropWhile]
  | cons c rest ih =>
    simp only [List.dropWhile]
    split
    · exact Nat.le_succ_of_le ih
    · simp

/-- Worker for the whitespace-collapsing step: `insideRun` records whether
the previous input character was whitespace (in which case the single
replacement space has already been emitted). -/
def collapseWsAux (insideRun : Bool) : List Char → List Char
  | [] => []
  | c :: rest =>
    if isJsWhitespace c then
      if insideRun then collapseWsAux true rest
      else ' ' :: collapseWsAux true rest
    else c :: collapseWsAux false rest

/-- `sanitized.replace(/\s+/g, ' ')`: each maximal whitespace run becomes one space. -/
def collapseWs (l : List Char) : List Char := collapseWsAux false l

/-- `sanitizeSearchQuery` from the route: strip control characters, truncate to
100 characters, collapse whitespace runs to a single space, trim. -/
def sanitizeSearchQuery (q : List Char) : List Char :=
  jsTrim (collapseWs ((stripControl q).take 100))

/-- One item of a (very small) regular-expression language: a literal
character, `\s+`, or `\s*`.  This is all the deny-list patterns need. -/
inductive RItem where
  | lit (c : Char)
  | wsPlus
  | wsStar
deriving DecidableEq

/-- Fueled worker for pattern matching: every recursive call shrinks
pattern-length + text-length, so the fuel below never runs out. -/
def rmatchF : Nat → List RItem → List Char → Bool
  | 0, _, _ => false
  | _ + 1, [], _ => true
  | _ + 1, .lit _ :: _, [] => false
  | f + 1, .lit c :: ps, x :: xs => (x.toLower == c) && rmatchF f ps xs
  | f + 1, .wsStar :: ps, [] => rmatchF f ps []
  | f + 1, .wsStar :: ps, x :: xs =>
    rmatchF f ps (x :: xs) || (isJsWhitespace x && rmatchF f (.wsStar :: ps) xs)
  | _ + 1, .wsPlus :: _, [] => false
  | f + 1, .wsPlus :: ps, x :: xs => isJsWhitespace x && rmatchF f (.wsStar :: ps) xs

/-- Does the pattern match some initial segment of the text?  Case-insensitive
on ASCII letters, like the `/i` flag on the source patterns (which are all
ASCII).  Complete backtracking over the whitespace items. -/
def rmatch (p : List RItem) (s : List Char) : Bool :=
  rmatchF (p.length + s.length + 1) p s

/-- Unanchored regex test (`pattern.test(query)`): match at any position. -/
def regexTest (p : List RItem) (s : List Char) : Bool :=
  s.tails.any (fun t => rmatch p t)

/-- Literal pattern fragment. -/
def lits (s : String) : List RItem := s.data.map RItem.lit

/-- The `maliciousPatterns` deny-list from `validateSearchQuery`. -/
def maliciousPatterns : List (List RItem) :=
  [ lits "union" ++ [RItem.wsPlus] ++ lits "select",
    lits "drop" ++ [RItem.wsPlus] ++ lits "table",
    lits "delete" ++ [RItem.wsPlus] ++ lits "from",
    lits "insert" ++ [RItem.wsPlus] ++ lits "into",
    lits "update" ++ [RItem.wsPlus] ++ lits "set",
    lits "alter" ++ [RItem.wsPlus] ++ lits "table",
    lits "exec" ++ [RItem.wsStar] ++ lits "(",
    lits "script" ++ [RItem.wsStar] ++ lits ">",
    lits "<script",
    lits "javascript:",
    lits "onload" ++ [RItem.wsStar] ++ lits "=",
    lits "onerror" ++ [RItem.wsStar] ++ lits "=" ]

/-- The deny-list loop in `validateSearchQuery`. -/
def hasMaliciousPattern (q : List Char) : Bool :=
  maliciousPatterns.any (fun p => regexTest p q)

/-- Result shape of `validateSearchQuery`:
`{ isValid: boolean; sanitized?: string; error?: string }`. -/
structure ValidationResult where
  isValid : Bool
  sanitized : Option (List Char) := none
  error : Option String := none
deriving DecidableEq

/-- `validateSearchQuery` from the route, clause for clause: blank check,
length check on the RAW query, deny-list check on the RAW query, then
sanitization, rejecting if sanitization left nothing. -/
def validateSearchQuery (q : List Char) : ValidationResult :=
  if q.isEmpty || (jsTrim q).isEmpty then
    ⟨false, none, some "Search query cannot be empty"⟩
  else if 100 < q.length then
    ⟨false, none, some "Search query too long (max 100 characters)"⟩
  else if hasMaliciousPattern q then
    ⟨false, none, some "Search query contains potentially malicious content"⟩
  else if (sanitizeSearchQuery q).length < 1 then
    ⟨false, none, some "Search query contains only invalid characters"⟩
  else ⟨true, some (sanitizeSearchQuery q), none⟩

/-- An advocate row (schema: text names/city/degree, `bigint` phone,
`jsonb` specialties, `integer` years of experience). -/
structure Advocate where
  firstName : List Char
  lastName : List Char
  city : List Char
  degree : List Char
  phoneNumber : Nat
  specialties : List (List Char)
  yearsOfExperience : Nat
deriving DecidableEq

/-- `phone_number::text` for a `bigint` column: decimal digits. -/
def renderPhone (n : Nat) : List Char := Nat.toDigits 10 n

def jsonEscapeChar (c : Char) : List Char :=
  if c == '"' || c == '\\' then ['\\', c] else [c]

/-- JSON string rendering for one specialty name. -/
def jsonStr (s : List Char) : List Char :=
  '"' :: s.foldr (fun c acc => jsonEscapeChar c ++ acc) ['"']

/-- `specialties::text` for a `jsonb` string array: `["a", "b"]`. -/
def renderSpecialties (ss : List (List Char)) : List Char :=
  '[' :: List.intercalate (", ".data) (ss.map jsonStr) ++ [']']

/-- Fueled worker for `LIKE` matching: every recursive call shrinks
pattern-length + text-length, so the fuel below never runs out. -/
def likeMatchF : Nat → List Char → List Char → Bool
  | 0, _, _ => false
  | _ + 1, [], [] => true
  | _ + 1, [], _ :: _ => false
  | f + 1, '%' :: ps, t =>
    likeMatchF f ps t || (match t with
      | [] => false
      | _ :: ts => likeMatchF f ('%' :: ps) ts)
  | f + 1, '_' :: ps, t =>
    (match t with
      | [] => false
      | _ :: ts => likeMatchF f ps ts)
  | f + 1, '\\' :: p :: ps, t =>
    (match t with
      | [] => false
      | d :: ts => (p == d) && likeMatchF f ps ts)
  | _ + 1, ['\\'], _ => false
  | f + 1, c :: ps, t =>
    (match t with
      | [] => false
      | d :: ts => (c == d) && likeMatchF f ps ts)

/-- SQL `LIKE` pattern matching (pattern, text): `%` any run, `_` any one
character, backslash escapes the next pattern character.  Both sides are
lower-cased by the caller for `ILIKE`.  A pattern ending in a bare backslash
is an error in Postgres; it is unreachable from `%...%` patterns and maps
to no match here. -/
def likeMatch (p t : List Char) : Bool :=
  likeMatchF (p.length + t.length + 1) p t

def toLowerList (l : List Char) : List Char := l.map Char.toLower

/-- `ilike(column, '%' + searchQuery + '%')`: case-insensitive containment
(with any `%`/`_` inside the query keeping their wildcard meaning, as in the
source, which interpolates the query straight into the pattern). -/
def ilikeContains (needle field : List Char) : Bool :=
  likeMatch (toLowerList ('%' :: needle ++ ['%'])) (toLowerList field)

/-- `10 ^ n` over the integers, by plain recursion (kernel-reducible). -/
def pow10Int : Nat → Int
  | 0 => 1
  | n + 1 => 10 * pow10Int n

/-- Result of JS `Number(...)`: NaN, an infinity, or a finite decimal value
represented exactly as mantissa × 10 ^ exponent. -/
inductive JsNumber where
  | nan
  | posInf
  | negInf
  | finite (mant exp : Int)
deriving DecidableEq

/-- The rational value of a finite JS number. -/
def jsVal (mant exp : Int) : ℚ := (mant : ℚ) * (10 : ℚ) ^ exp

/-- Exact equality between a finite JS number and a natural number, in pure
integer arithmetic (kernel-reducible). -/
def yearsEq (mant exp : Int) (y : Nat) : Bool :=
  match exp with
  | .ofNat n => mant * pow10Int n == (y : Int)
  | .negSucc n => mant == (y : Int) * pow10Int (n + 1)

def digitVal? (base : Nat) (c : Char) : Option Nat :=
  let d :=
    if '0' ≤ c ∧ c ≤ '9' then some (c.toNat - '0'.toNat)
    else if 'a' ≤ c ∧ c ≤ 'f' then some (c.toNat - 'a'.toNat + 10)
    else if 'A' ≤ c ∧ c ≤ 'F' then some (c.toNat - 'A'.toNat + 10)
    else none
  match d with
  | some v => if v < base then some v else none
  | none => none

def parseNatBaseAux (base : Nat) (acc : Nat) : List Char → Option Nat
  | [] => some acc
  | c :: cs =>
    match digitVal? base c with
    | some v => parseNatBaseAux base (base * acc + v) cs
    | none => none

/-- Parse a non-empty all-digit string in the given base. -/
def parseNatBase (base : Nat) (l : List Char) : Option Nat :=
  if l.isEmpty then none else parseNatBaseAux base 0 l

def digitsToNat (l : List Char) : Nat :=
  l.foldl (fun acc c => 10 * acc + (c.toNat - '0'.toNat)) 0

/-- Parse the optional exponent suffix of a decimal literal (`e`/`E`, an
optional sign, at least one digit); `some 0` for the empty rest. -/
def parseExpSuffix : List Char → Option Int
  | [] => some 0
  | c :: cs =>
    if c == 'e' || c == 'E' then
      match cs with
      | '+' :: ds =>
        if ds.isEmpty then none
        else if ds.all Char.isDigit then some (digitsToNat ds) else none
      | '-' :: ds =>
        if ds.isEmpty then none
        else if ds.all Char.isDigit then some (-(digitsToNat ds : Int)) else none
      | ds =>
        if ds.isEmpty then none
        else if ds.all Char.isDigit then some (digitsToNat ds) else none
    else none

/-- Parse an unsigned decimal literal `digits [. digits] [exp]` (at least one
digit somewhere), consuming the whole input; the value is returned exactly as
(mantissa, exponent) with value = mantissa × 10 ^ exponent. -/
def parseDecCore (l : List Char) : Option (Int × Int) :=
  let ip := l.takeWhile Char.isDigit
  let rest := l.dropWhile Char.isDigit
  match rest with
  | '.' :: rest2 =>
    let fp := rest2.takeWhile Char.isDigit
    let rest3 := rest2.dropWhile Char.isDigit
    if ip.isEmpty && fp.isEmpty then none
    else
      (parseExpSuffix rest3).map (fun e =>
        ((digitsToNat (ip ++ fp) : Int), e - (fp.length : Int)))
  | _ =>
    if ip.isEmpty then none
    else (parseExpSuffix rest).map (fun e => ((digitsToNat ip : Int), e))

/-- JS `Number(string)` on the strings this route can see: trimmed; empty to
0; `Infinity` literals; `0x`/`0o`/`0b` integer literals (sign-less, per the
spec of `Number`); otherwise an optionally signed decimal literal; anything
else is NaN. -/
def jsNumber (s : List Char) : JsNumber :=
  let t := jsTrim s
  if t.isEmpty then .finite 0 0
  else if t = "Infinity".data ∨ t = "+Infinity".data then .posInf
  else if t = "-Infinity".data then .negInf
  else
    match t with
    | '0' :: c :: rest =>
      if c == 'x' || c == 'X' then
        (match parseNatBase 16 rest with
          | some n => .finite n 0
          | none => .nan)
      else if c == 'o' || c == 'O' then
        (match parseNatBase 8 rest with
          | some n => .finite n 0
          | none => .nan)
      else if c == 'b' || c == 'B' then
        (match parseNatBase 2 rest with
          | some n => .finite n 0
          | none => .nan)
      else
        (match parseDecCore t with
          | some v => .finite v.1 v.2
          | none => .nan)
    | '+' :: rest =>
      (match parseDecCore rest with
        | some v => .finite v.1 v.2
        | none => .nan)
    | '-' :: rest =>
      (match parseDecCore rest with
        | some v => .finite (-v.1) v.2
        | none => .nan)
    | _ =>
      (match parseDecCore t with
        | some v => .finite v.1 v.2
        | none => .nan)

/-- The years-of-experience clause of the filter:
`(!isNaN(Number(q))) ? eq(advocates.yearsOfExperience, Number(q)) : FALSE`.
For NaN the literal false clause; an equality between the integer column
and `Number(q)` otherwise (never true for the infinities). -/
def yearsClause (q : List Char) (a : Advocate) : Bool :=
  match jsNumber q with
  | .finite m e => yearsEq m e a.yearsOfExperience
  | _ => false

/-- The six case-insensitive substring clauses of the search filter. -/
def textMatch (q : List Char) (a : Advocate) : Bool :=
  ilikeContains q a.firstName || ilikeContains q a.lastName ||
  ilikeContains q a.city || ilikeContains q a.degree ||
  ilikeContains q (renderPhone a.phoneNumber) ||
  ilikeContains q (renderSpecialties a.specialties)

/-- The `or(...)` filter of `searchAdvocates` (rows query), clause for clause. -/
def searchWhere (q : List Char) (a : Advocate) : Bool :=
  ilikeContains q a.firstName ||
  (ilikeContains q a.lastName ||
  (ilikeContains q a.city ||
  (ilikeContains q a.degree ||
  (ilikeContains q (renderPhone a.phoneNumber) ||
  (ilikeContains q (renderSpecialties a.specialties) ||
  yearsClause q a)))))

/-- The `or(...)` filter of `getSearchAdvocatesCount` (count query), which the
source duplicates textually; embedded as its own definition. -/
def countWhere (q : List Char) (a : Advocate) : Bool :=
  ilikeContains q a.firstName ||
  (ilikeContains q a.lastName ||
  (ilikeContains q a.city ||
  (ilikeContains q a.degree ||
  (ilikeContains q (renderPhone a.phoneNumber) ||
  (ilikeContains q (renderSpecialties a.specialties) ||
  yearsClause q a)))))

/-- A cache value: a page of rows or a count. -/
inductive CacheValue where
  | rows (rs : List Advocate)
  | cnt (n : Nat)
deriving DecidableEq

def CacheValue.getRows : CacheValue → List Advocate
  | .rows rs => rs
  | .cnt _ => []

def CacheValue.getCnt : CacheValue → Nat
  | .cnt n => n
  | .rows _ => 0

/-- Cache keys: one constructor per `unstable_cache` wrapper, carrying the
wrapped function's arguments — mirroring the key-part arrays
`['all-advocates']`, `['advocates-count']`, `['search-advocates']`,
`['search-advocates-count']` plus the serialized arguments. -/
inductive CacheKey where
  | allAdvocates (page limit : Int)
  | advocatesCount
  | searchKey (q : List Char) (page limit : Int)
  | searchCountKey (q : List Char)
deriving DecidableEq

/-- A database round trip, with the values interpolated into the query. -/
inductive StoreOp where
  | selectPage (limit offset : Int)
  | selectCount
  | selectSearch (q : List Char) (limit offset : Int)
  | selectSearchCount (q : List Char)
deriving DecidableEq

/-- An observable effect of the handler: a cache lookup or a store access. -/
inductive Eff where
  | cacheLookup (k : CacheKey)
  | store (op : StoreOp)
deriving DecidableEq

def Eff.isStore : Eff → Bool
  | .store _ => true
  | _ => false

/-- Cache state: entries (key, stored-at time, value); newest first. -/
abbrev CacheState := List (CacheKey × Nat × CacheValue)

def cacheGet (c : CacheState) (k : CacheKey) : Option (Nat × CacheValue) :=
  match c with
  | [] => none
  | (k', t, v) :: rest => if k = k' then some (t, v) else cacheGet rest k

structure CallResult where
  value : CacheValue
  cache : CacheState
  effs : List Eff
deriving DecidableEq

/-- One `unstable_cache`-wrapped call with `revalidate: ttl`: if an entry for
the key exists and is younger than the TTL, serve it (one cache lookup, no
store access); otherwise run the query against the store and record the
fresh value at the current time. -/
def cachedCall (now ttl : Nat) (k : CacheKey) (fresh : CacheValue)
    (op : StoreOp) (c : CacheState) : CallResult :=
  match cacheGet c k with
  | some (t, v) =>
    if now < t + ttl then ⟨v, c, [.cacheLookup k]⟩
    else ⟨fresh, (k, now, fresh) :: c, [.cacheLookup k, .store op]⟩
  | none => ⟨fresh, (k, now, fresh) :: c, [.cacheLookup k, .store op]⟩

structure PairResult where
  v1 : CacheValue
  v2 : CacheValue
  cache : CacheState
  effs : List Eff

/-- The `Promise.all([...])` of two cached fetches.  Both wrappers use
`revalidate: 60`.  The two keys are always distinct, so running them in
sequence is equivalent to the concurrent execution in the source. -/
def runPair (now : Nat) (c : CacheState)
    (k1 : CacheKey) (f1 : CacheValue) (op1 : StoreOp)
    (k2 : CacheKey) (f2 : CacheValue) (op2 : StoreOp) : PairResult :=
  let r1 := cachedCall now 60 k1 f1 op1 c
  let r2 := cachedCall now 60 k2 f2 op2 r1.cache
  ⟨r1.value, r2.value, r2.cache, r1.effs ++ r2.effs⟩

/-- `db.select().from(advocates).limit(limit).offset(offset)`. -/
def dbSelectPage (store : List Advocate) (limit offset : Int) : List Advocate :=
  (store.drop offset.toNat).take limit.toNat

/-- `db.select({ count: count() }).from(advocates)`. -/
def dbCountAll (store : List Advocate) : Nat := store.length

/-- The rows query of `searchAdvocates`. -/
def dbSearchPage (store : List Advocate) (q : List Char) (limit offset : Int) :
    List Advocate :=
  ((store.filter (searchWhere q)).drop offset.toNat).take limit.toNat

/-- The count query of `getSearchAdvocatesCount`. -/
def dbSearchCount (store : List Advocate) (q : List Char) : Nat :=
  (store.filter (countWhere q)).length

/-- The pagination envelope. -/
structure Pagination where
  page : Int
  limit : Int
  total : Nat
  totalPages : Nat
  hasNext : Bool
  hasPrev : Bool
deriving DecidableEq

/-- The pagination block built by GET: `totalPages` is
`Math.ceil(totalCount / validLimit)` (for positive integer limit this is
`(total + limit - 1) / limit` in integer division), `hasNext` is
`validPage < totalPages`, `hasPrev` is `validPage > 1`. -/
def mkPagination (page limit : Int) (total : Nat) : Pagination :=
  let totalPages := (total + limit.toNat - 1) / limit.toNat
  ⟨page, limit, total, totalPages,
    decide (page < (totalPages : Int)), decide (1 < page)⟩

structure SuccessBody where
  data : List Advocate
  pagination : Pagination
deriving DecidableEq

/-- The handler's response: the success envelope
`{ data, pagination }` or the validation-failure envelope
`{ error, message }` (HTTP 400, caching disabled). -/
inductive GetResponse where
  | success (body : SuccessBody)
  | badRequest (error : Option String) (message : String)
deriving DecidableEq

def GetResponse.status : GetResponse → Nat
  | .success _ => 200
  | .badRequest _ _ => 400

def GetResponse.isSuccess : GetResponse → Bool
  | .success _ => true
  | _ => false

def GetResponse.body? : GetResponse → Option SuccessBody
  | .success b => some b
  | _ => none

/-- `Math.min(Math.max(1, page), 120000)`. -/
def clampPage (page : Int) : Int := min (max 1 page) 120000

/-- `Math.min(Math.max(10, limit), 100)`. -/
def clampLimit (limit : Int) : Int := min (max 10 limit) 100

/-- The list-all branch of GET: `getAllAdvocates(validPage, validLimit)` and
`getAdvocatesCount()` in parallel, then the pagination envelope. -/
def listPath (now : Nat) (store : List Advocate) (cache : CacheState)
    (validPage validLimit : Int) : GetResponse × CacheState × List Eff :=
  let offset := (validPage - 1) * validLimit
  let r := runPair now cache
    (.allAdvocates validPage validLimit)
    (.rows (dbSelectPage store validLimit offset)) (.selectPage validLimit offset)
    .advocatesCount (.cnt (dbCountAll store)) .selectCount
  (.success ⟨r.v1.getRows, mkPagination validPage validLimit r.v2.getCnt⟩,
    r.cache, r.effs)

/-- The search branch of GET: `searchAdvocates(sanitizedQuery, validPage,
validLimit)` and `getSearchAdvocatesCount(sanitizedQuery)` in parallel, then
the pagination envelope. -/
def searchPath (now : Nat) (store : List Advocate) (cache : CacheState)
    (q : List Char) (validPage validLimit : Int) :
    GetResponse × CacheState × List Eff :=
  let offset := (validPage - 1) * validLimit
  let r := runPair now cache
    (.searchKey q validPage validLimit)
    (.rows (dbSearchPage store q validLimit offset)) (.selectSearch q validLimit offset)
    (.searchCountKey q) (.cnt (dbSearchCount store q)) (.selectSearchCount q)
  (.success ⟨r.v1.getRows, mkPagination validPage validLimit r.v2.getCnt⟩,
    r.cache, r.effs)

/-- An inbound request: the optional `search` parameter, and the `page` and
`limit` parameters after `parseInt(... || "1")` / `parseInt(... || "10")`
(integers; the defaults 1 and 10 are substituted by the caller model). -/
structure Request where
  search : Option (List Char)
  page : Int
  limit : Int

/-- The GET handler: clamp page and limit; blank or absent search takes the
list-all path; otherwise validate, returning the 400 envelope with no store
or cache access on rejection, else the search path on the sanitized query. -/
def GET (now : Nat) (store : List Advocate) (cache : CacheState)
    (req : Request) : GetResponse × CacheState × List Eff :=
  let validPage := clampPage req.page
  let validLimit := clampLimit req.limit
  match req.search with
  | none => listPath now store cache validPage validLimit
  | some s =>
    if (jsTrim s).isEmpty then listPath now store cache validPage validLimit
    else
      let validation := validateSearchQuery s
      if validation.isValid then
        searchPath now store cache (validation.sanitized.getD []) validPage validLimit
      else
        (.badRequest validation.error "Invalid search query provided", cache, [])

/-- A small concrete store used by witnesses. -/
def advA : Advocate :=
  ⟨"John".data, "Smith".data, "Phoenix".data, "MD".data, 5551234567,
    ["Anxiety".data, "Depression".data], 7⟩

/-- A second concrete advocate. -/
def advB : Advocate :=
  ⟨"Jane".data, "Doe".data, "Denver".data, "PhD".data, 5559876543,
    ["Nutrition".data], 12⟩

def demoStore : List Advocate := [advA, advB]

/-! ### Properties of the sanitizer -/

/-- No two adjacent whitespace characters. -/
def noDoubleWs : List Char → Bool
  | a :: b :: rest => !(isJsWhitespace a && isJsWhitespace b) && noDoubleWs (b :: rest)
  | _ => true

def headNotWs (l : List Char) : Bool :=
  match l.head? with
  | some c => !isJsWhitespace c
  | none => true

def lastNotWs (l : List Char) : Bool :=
  match l.getLast? with
  | some c => !isJsWhitespace c
  | none => true

/-- The shape every query reaching the search store calls must have:
non-empty, at most 100 characters, no control characters, no whitespace run
of length two or more, and no leading or trailing whitespace. -/
def cleanQuery (q : List Char) : Bool :=
  !q.isEmpty && decide (q.length ≤ 100) && q.all (fun c => !isControlChar c) &&
  noDoubleWs q && headNotWs q && lastNotWs q

theorem dropTrailingWs_length_le (l : List Char) :
    (dropTrailingWs l).length ≤ l.length := by
  induction l with
  | nil => simp [dropTrailingWs]
  | cons c rest ih =>
    simp only [dropTrailingWs]
    split
    · simp
    · simpa using ih

theorem mem_dropTrailingWs (l : List Char) (c : Char)
    (h : c ∈ dropTrailingWs l) : c ∈ l := by
  induction l with
  | nil => simp [dropTrailingWs] at h
  | cons a rest ih =>
    simp only [dropTrailingWs] at h
    split at h
    · simp at h
    · rcases List.mem_cons.mp h with h' | h'
      · simp [h']
      · exact List.mem_cons_of_mem _ (ih h')

theorem head?_dropTrailingWs (l : List Char) (c : Char)
    (h : (dropTrailingWs l).head? = some c) : l.head? = some c := by
  cases l with
  | nil => simp [dropTrailingWs] at h
  | cons a rest =>
    simp only [dropTrailingWs] at h
    split at h
    · simp at h
    · simpa using h

theorem getLast?_dropTrailingWs_not_ws (l : List Char) (c : Char)
    (h : (dropTrailingWs l).getLast? = some c) : isJsWhitespace c = false := by
  induction l with
  | nil => simp [dropTrailingWs] at h
  | cons a rest ih =>
    simp only [dropTrailingWs] at h
    split at h
    · simp at h
    · rename_i hcond
      cases hr : dropTrailingWs rest with
      | nil =>
        rw [hr] at h
        simp only [List.getLast?_singleton, Option.some.injEq] at h
        subst h
        rw [hr] at hcond
        simpa using hcond
      | cons x xs =>
        rw [hr] at h
        rw [List.getLast?_cons_cons] at h
        rw [← hr] at h
        exact ih h

theorem mem_dropWhile (p : Char → Bool) (l : List Char) (c : Char)
    (h : c ∈ l.dropWhile p) : c ∈ l := by
  induction l with
  | nil => simp at h
  | cons a rest ih =>
    cases hpa : p a with
    | true =>
      rw [List.dropWhile_cons, hpa] at h
      simp only [if_true] at h
      exact List.mem_cons_of_mem _ (ih h)
    | false =>
      rw [List.dropWhile_cons, hpa] at h
      simpa using h

theorem head?_dropWhile_not (p : Char → Bool) (l : List Char) (c : Char)
    (h : (l.dropWhile p).head? = some c) : p c = false := by
  induction l with
  | nil => simp at h
  | cons a rest ih =>
    cases hpa : p a with
    | true =>
      rw [List.dropWhile_cons, hpa] at h
      simp only [if_true] at h
      exact ih h
    | false =>
      rw [List.dropWhile_cons, hpa] at h
      simp only [Bool.false_eq_true, if_false, List.head?_cons,
        Option.some.injEq] at h
      exact h ▸ hpa

theorem collapseWsAux_length_le (b : Bool) (l : List Char) :
    (collapseWsAux b l).length ≤ l.length := by
  induction l generalizing b with
  | nil => simp [collapseWsAux]
  | cons c rest ih =>
    simp only [collapseWsAux]
    by_cases h : isJsWhitespace c
    · rw [if_pos h]
      cases b with
      | true =>
        simp only [if_true]
        exact Nat.le_succ_of_le (ih true)
      | false =>
        simp only [Bool.false_eq_true, if_false, List.length_cons]
        exact Nat.succ_le_succ (ih true)
    · rw [if_neg h]
      simp only [List.length_cons]
      exact Nat.succ_le_succ (ih false)

theorem collapseWs_length_le (l : List Char) : (collapseWs l).length ≤ l.length :=
  collapseWsAux_length_le false l

theorem mem_collapseWsAux (b : Bool) (l : List Char) (c : Char)
    (h : c ∈ collapseWsAux b l) : c = ' ' ∨ c ∈ l := by
  induction l generalizing b with
  | nil => simp [collapseWsAux] at h
  | cons a rest ih =>
    simp only [collapseWsAux] at h
    by_cases ha : isJsWhitespace a
    · rw [if_pos ha] at h
      cases b with
      | true =>
        simp only [if_true] at h
        rcases ih true h with h' | h'
        · exact Or.inl h'
        · exact Or.inr (List.mem_cons_of_mem _ h')
      | false =>
        simp only [Bool.false_eq_true, if_false] at h
        rcases List.mem_cons.mp h with h' | h'
        · exact Or.inl h'
        · rcases ih true h' with h'' | h''
          · exact Or.inl h''
          · exact Or.inr (List.mem_cons_of_mem _ h'')
    · rw [if_neg ha] at h
      rcases List.mem_cons.mp h with h' | h'
      · exact Or.inr (by simp [h'])
      · rcases ih false h' with h'' | h''
        · exact Or.inl h''
        · exact Or.inr (List.mem_cons_of_mem _ h'')

theorem mem_collapseWs (l : List Char) (c : Char) (h : c ∈ collapseWs l) :
    c = ' ' ∨ c ∈ l :=
  mem_collapseWsAux false l c h

theorem head?_collapseWs (l : List Char) :
    (collapseWs l).head? =
      l.head?.map (fun c => if isJsWhitespace c then ' ' else c) := by
  cases l with
  | nil => simp [collapseWs, collapseWsAux]
  | cons c rest =>
    by_cases h : isJsWhitespace c
    · simp [collapseWs, collapseWsAux, h]
    · simp [collapseWs, collapseWsAux, h]

theorem noDoubleWs_cons (a : Char) (r : List Char) :
    noDoubleWs (a :: r) =
      ((match r.head? with
        | some b => !(isJsWhitespace a && isJsWhitespace b)
        | none => true) && noDoubleWs r) := by
  cases r with
  | nil => simp [noDoubleWs]
  | cons b rest => simp [noDoubleWs]

theorem noDoubleWs_tail (a : Char) (r : List Char)
    (h : noDoubleWs (a :: r) = true) : noDoubleWs r = true := by
  rw [noDoubleWs_cons] at h
  simp only [Bool.and_eq_true] at h
  exact h.2

theorem head?_collapseWsAux_true (l : List Char) (c : Char)
    (h : (collapseWsAux true l).head? = some c) : isJsWhitespace c = false := by
  induction l with
  | nil => simp [collapseWsAux] at h
  | cons a rest ih =>
    simp only [collapseWsAux] at h
    by_cases ha : isJsWhitespace a
    · rw [if_pos ha] at h
      simp only [if_true] at h
      exact ih h
    · rw [if_neg ha] at h
      simp only [List.head?_cons, Option.some.injEq] at h
      subst h
      simpa using ha

theorem noDoubleWs_collapseWsAux (b : Bool) (l : List Char) :
    noDoubleWs (collapseWsAux b l) = true := by
  induction l generalizing b with
  | nil => simp [collapseWsAux, noDoubleWs]
  | cons c rest ih =>
    simp only [collapseWsAux]
    by_cases h : isJsWhitespace c
    · rw [if_pos h]
      cases b with
      | true =>
        simp only [if_true]
        exact ih true
      | false =>
        simp only [Bool.false_eq_true, if_false]
        rw [noDoubleWs_cons]
        simp only [Bool.and_eq_true]
        refine ⟨?_, ih true⟩
        cases hx : (collapseWsAux true rest).head? with
        | none => simp
        | some y =>
          have hy := head?_collapseWsAux_true rest y hx
          simp [hy]
    · rw [if_neg h]
      rw [noDoubleWs_cons]
      simp only [Bool.and_eq_true]
      refine ⟨?_, ih false⟩
      cases hx : (collapseWsAux false rest).head? with
      | none => simp
      | some y => simp [h]

theorem noDoubleWs_collapseWs (l : List Char) :
    noDoubleWs (collapseWs l) = true :=
  noDoubleWs_collapseWsAux false l

theorem noDoubleWs_dropWhile (p : Char → Bool) (l : List Char)
    (h : noDoubleWs l = true) : noDoubleWs (l.dropWhile p) = true := by
  induction l with
  | nil => simpa using h
  | cons a rest ih =>
    cases hpa : p a with
    | true =>
      rw [List.dropWhile_cons, hpa]
      simp only [if_true]
      exact ih (noDoubleWs_tail _ _ h)
    | false =>
      rw [List.dropWhile_cons, hpa]
      simpa using h

theorem noDoubleWs_dropTrailingWs (l : List Char)
    (h : noDoubleWs l = true) : noDoubleWs (dropTrailingWs l) = true := by
  induction l with
  | nil => simpa [dropTrailingWs] using h
  | cons c rest ih =>
    simp only [dropTrailingWs]
    split
    · simp [noDoubleWs]
    · rw [noDoubleWs_cons]
      simp only [Bool.and_eq_true]
      refine ⟨?_, ih (noDoubleWs_tail _ _ h)⟩
      cases hh : (dropTrailingWs rest).head? with
      | none => simp
      | some b =>
        have hb : rest.head? = some b := head?_dropTrailingWs _ _ hh
        rw [noDoubleWs_cons, hb] at h
        simp only [Bool.and_eq_true] at h
        exact h.1

theorem sanitize_length_le (q : List Char) :
    (sanitizeSearchQuery q).length ≤ 100 := by
  unfold sanitizeSearchQuery jsTrim
  have h1 := dropTrailingWs_length_le
    ((collapseWs ((stripControl q).take 100)).dropWhile isJsWhitespace)
  have h2 := length_dropWhile_le isJsWhitespace (collapseWs ((stripControl q).take 100))
  have h3 := collapseWs_length_le ((stripControl q).take 100)
  have h4 : ((stripControl q).take 100).length ≤ 100 := by
    simp [List.length_take]
  omega

theorem sanitize_no_control (q : List Char) (c : Char)
    (h : c ∈ sanitizeSearchQuery q) : isControlChar c = false := by
  unfold sanitizeSearchQuery jsTrim at h
  have h1 := mem_dropWhile isJsWhitespace _ _ (mem_dropTrailingWs _ _ h)
  rcases mem_collapseWs _ _ h1 with h2 | h2
  · subst h2; rfl
  · have h3 : c ∈ stripControl q := List.take_subset _ _ h2
    unfold stripControl at h3
    have := (List.mem_filter.mp h3).2
    simpa using this

theorem sanitize_noDoubleWs (q : List Char) :
    noDoubleWs (sanitizeSearchQuery q) = true :=
  noDoubleWs_dropTrailingWs _
    (noDoubleWs_dropWhile _ _ (noDoubleWs_collapseWs _))

theorem sanitize_headNotWs (q : List Char) :
    headNotWs (sanitizeSearchQuery q) = true := by
  unfold headNotWs
  cases hh : (sanitizeSearchQuery q).head? with
  | none => rfl
  | some c =>
    unfold sanitizeSearchQuery jsTrim at hh
    have h1 := head?_dropTrailingWs _ _ hh
    have h2 := head?_dropWhile_not isJsWhitespace _ _ h1
    simp [h2]

theorem sanitize_lastNotWs (q : List Char) :
    lastNotWs (sanitizeSearchQuery q) = true := by
  unfold lastNotWs
  cases hh : (sanitizeSearchQuery q).getLast? with
  | none => rfl
  | some c =>
    unfold sanitizeSearchQuery jsTrim at hh
    have := getLast?_dropTrailingWs_not_ws _ _ hh
    simp [this]

/-- The sanitizer's output always has the clean-query shape, provided it is
non-empty (which the validator checks before the query is used). -/
theorem cleanQuery_sanitize (q : List Char)
    (h : (sanitizeSearchQuery q).length ≠ 0) :
    cleanQuery (sanitizeSearchQuery q) = true := by
  unfold cleanQuery
  simp only [Bool.and_eq_true]
  refine ⟨⟨⟨⟨⟨?_, ?_⟩, ?_⟩, ?_⟩, ?_⟩, ?_⟩
  · cases hq : sanitizeSearchQuery q with
    | nil => exact absurd (by simp [hq]) h
    | cons a r => simp
  · simpa using sanitize_length_le q
  · rw [List.all_eq_true]
    intro c hc
    simp [sanitize_no_control q c hc]
  · exact sanitize_noDoubleWs q
  · exact sanitize_headNotWs q
  · exact sanitize_lastNotWs q

/-! ### Arithmetic of the pagination block -/

/-- For positive `l`, the integer expression `(t + l - 1) / l` used by
`mkPagination` equals the mathematical ceiling of `t / l`. -/
theorem ceilDiv_eq_natCeil (t l : Nat) (hl : 0 < l) :
    (t + l - 1) / l = ⌈(t : ℚ) / (l : ℚ)⌉₊ := by
  rcases Nat.eq_zero_or_pos t with ht | ht
  · subst ht
    simp only [Nat.zero_add, Nat.cast_zero, zero_div, Nat.ceil_zero]
    exact Nat.div_eq_of_lt (by omega)
  · have hL : (0 : ℚ) < (l : ℚ) := by exact_mod_cast hl
    set n := (t + l - 1) / l with hn
    have key : t ≤ n * l ∧ n * l < t + l := by
      have hdm : l * n + (t + l - 1) % l = t + l - 1 := Nat.div_add_mod _ _
      have hmlt : (t + l - 1) % l < l := Nat.mod_lt _ hl
      rw [Nat.mul_comm l n] at hdm
      generalize n * l = P at *
      omega
    have hn0 : n ≠ 0 := by
      intro h0
      rw [h0, Nat.zero_mul] at key
      omega
    rw [eq_comm, Nat.ceil_eq_iff hn0]
    have h3 : (n - 1) * l < t := by
      have e : (n - 1) * l = n * l - l := by rw [Nat.sub_mul, Nat.one_mul]
      rw [e]
      generalize n * l = P at *
      omega
    constructor
    · rw [lt_div_iff₀ hL]
      exact_mod_cast h3
    · rw [div_le_iff₀ hL]
      exact_mod_cast key.1

/-- For a positive integer limit, the `totalPages` field is the ceiling of
`total / limit`. -/
theorem mkPagination_totalPages (page limit : Int) (total : Nat)
    (h : 1 ≤ limit) :
    (mkPagination page limit total).totalPages =
      ⌈(total : ℚ) / (limit : ℚ)⌉₊ := by
  have h0 : 0 < limit.toNat := by omega
  have hc : ((limit.toNat : Nat) : ℚ) = ((limit : Int) : ℚ) := by
    rw [← Int.cast_natCast]
    exact congrArg _ (Int.toNat_of_nonneg (by omega))
  simp only [mkPagination]
  rw [ceilDiv_eq_natCeil total limit.toNat h0, hc]

theorem mkPagination_totalPages_zero (page limit : Int) (h : 1 ≤ limit) :
    (mkPagination page limit 0).totalPages = 0 := by
  simp only [mkPagination]
  exact Nat.div_eq_of_lt (by omega)

/-! ### Structural lemmas about the handler -/

/-- A valid result implies: the query is not blank, the returned sanitized
text is exactly the sanitizer's output, and that output is non-empty. -/
theorem validateSearchQuery_valid (q : List Char)
    (h : (validateSearchQuery q).isValid = true) :
    (jsTrim q).isEmpty = false ∧
    (validateSearchQuery q).sanitized = some (sanitizeSearchQuery q) ∧
    (sanitizeSearchQuery q).length ≠ 0 := by
  by_cases h1 : (q.isEmpty || (jsTrim q).isEmpty) = true
  · exfalso
    unfold validateSearchQuery at h
    rw [if_pos h1] at h
    simp at h
  · by_cases h2 : 100 < q.length
    · exfalso
      unfold validateSearchQuery at h
      rw [if_neg h1, if_pos h2] at h
      simp at h
    · by_cases h3 : hasMaliciousPattern q = true
      · exfalso
        unfold validateSearchQuery at h
        rw [if_neg h1, if_neg h2, if_pos h3] at h
        simp at h
      · by_cases h4 : (sanitizeSearchQuery q).length < 1
        · exfalso
          unfold validateSearchQuery at h
          rw [if_neg h1, if_neg h2, if_neg h3, if_pos h4] at h
          simp at h
        · have e : validateSearchQuery q =
              ⟨true, some (sanitizeSearchQuery q), none⟩ := by
            unfold validateSearchQuery
            rw [if_neg h1, if_neg h2, if_neg h3, if_neg h4]
          rw [e]
          simp only [Bool.or_eq_true] at h1
          push_neg at h1
          refine ⟨?_, rfl, by omega⟩
          rcases Bool.eq_false_or_eq_true (jsTrim q).isEmpty with htr | hf
          · exact absurd htr h1.2
          · exact hf

theorem listPath_body (now : Nat) (store : List Advocate) (cache : CacheState)
    (vp vl : Int) :
    ∃ rows total, (listPath now store cache vp vl).1 =
      .success ⟨rows, mkPagination vp vl total⟩ :=
  ⟨_, _, rfl⟩

theorem searchPath_body (now : Nat) (store : List Advocate)
    (cache : CacheState) (q : List Char) (vp vl : Int) :
    ∃ rows total, (searchPath now store cache q vp vl).1 =
      .success ⟨rows, mkPagination vp vl total⟩ :=
  ⟨_, _, rfl⟩

theorem cachedCall_effs (now ttl : Nat) (k : CacheKey) (fresh : CacheValue)
    (op : StoreOp) (c : CacheState) :
    (cachedCall now ttl k fresh op c).effs = [.cacheLookup k] ∨
    (cachedCall now ttl k fresh op c).effs = [.cacheLookup k, .store op] := by
  unfold cachedCall
  rcases cacheGet c k with _ | ⟨t, v⟩
  · exact Or.inr rfl
  · simp only
    split
    · exact Or.inl rfl
    · exact Or.inr rfl

theorem runPair_effs_mem (now : Nat) (c : CacheState)
    (k1 : CacheKey) (f1 : CacheValue) (op1 : StoreOp)
    (k2 : CacheKey) (f2 : CacheValue) (op2 : StoreOp) :
    ∀ e ∈ (runPair now c k1 f1 op1 k2 f2 op2).effs,
      e = .cacheLookup k1 ∨ e = .store op1 ∨ e = .cacheLookup k2 ∨ e = .store op2 := by
  intro e he
  unfold runPair at he
  simp only [List.mem_append] at he
  rcases he with he | he
  · rcases cachedCall_effs now 60 k1 f1 op1 c with h | h <;> rw [h] at he <;>
      simp at he
    · exact Or.inl he
    · rcases he with he | he
      · exact Or.inl he
      · exact Or.inr (Or.inl he)
  · rcases cachedCall_effs now 60 k2 f2 op2
        (cachedCall now 60 k1 f1 op1 c).cache with h | h <;> rw [h] at he <;>
      simp at he
    · exact Or.inr (Or.inr (Or.inl he))
    · rcases he with he | he
      · exact Or.inr (Or.inr (Or.inl he))
      · exact Or.inr (Or.inr (Or.inr he))

/-- Effect check for C9: any search query reaching the store or the cache
must have the clean shape. -/
def searchEffClean : Eff → Bool
  | .store (.selectSearch q _ _) => cleanQuery q
  | .store (.selectSearchCount q) => cleanQuery q
  | .cacheLookup (.searchKey q _ _) => cleanQuery q
  | .cacheLookup (.searchCountKey q) => cleanQuery q
  | _ => true

/-- Effect check for C4: every fetch uses the clamped page/limit (the store
queries via limit and offset, the cache keys via page and limit). -/
def effClamped (vp vl : Int) : Eff → Bool
  | .store (.selectPage lm off) => lm == vl && off == (vp - 1) * vl
  | .store (.selectSearch _ lm off) => lm == vl && off == (vp - 1) * vl
  | .cacheLookup (.allAdvocates p lm) => p == vp && lm == vl
  | .cacheLookup (.searchKey _ p lm) => p == vp && lm == vl
  | _ => true

theorem listPath_all_searchEffClean (now : Nat) (store : List Advocate)
    (cache : CacheState) (vp vl : Int) :
    ((listPath now store cache vp vl).2.2).all searchEffClean = true := by
  rw [List.all_eq_true]
  intro e he
  have hm : e ∈ (runPair now cache
      (.allAdvocates vp vl)
      (.rows (dbSelectPage store vl ((vp - 1) * vl)))
      (.selectPage vl ((vp - 1) * vl))
      .advocatesCount (.cnt (dbCountAll store)) .selectCount).effs := he
  rcases runPair_effs_mem _ _ _ _ _ _ _ _ e hm with h | h | h | h <;>
    subst h <;> rfl

theorem searchPath_all_searchEffClean (now : Nat) (store : List Advocate)
    (cache : CacheState) (q : List Char) (vp vl : Int)
    (hq : cleanQuery q = true) :
    ((searchPath now store cache q vp vl).2.2).all searchEffClean = true := by
  rw [List.all_eq_true]
  intro e he
  have hm : e ∈ (runPair now cache
      (.searchKey q vp vl)
      (.rows (dbSearchPage store q vl ((vp - 1) * vl)))
      (.selectSearch q vl ((vp - 1) * vl))
      (.searchCountKey q) (.cnt (dbSearchCount store q))
      (.selectSearchCount q)).effs := he
  rcases runPair_effs_mem _ _ _ _ _ _ _ _ e hm with h | h | h | h <;>
    subst h <;> simpa [searchEffClean] using hq

theorem listPath_all_effClamped (now : Nat) (store : List Advocate)
    (cache : CacheState) (vp vl : Int) :
    ((listPath now store cache vp vl).2.2).all (effClamped vp vl) = true := by
  rw [List.all_eq_true]
  intro e he
  have hm : e ∈ (runPair now cache
      (.allAdvocates vp vl)
      (.rows (dbSelectPage store vl ((vp - 1) * vl)))
      (.selectPage vl ((vp - 1) * vl))
      .advocatesCount (.cnt (dbCountAll store)) .selectCount).effs := he
  rcases runPair_effs_mem _ _ _ _ _ _ _ _ e hm with h | h | h | h <;>
    subst h <;> simp [effClamped]

theorem searchPath_all_effClamped (now : Nat) (store : List Advocate)
    (cache : CacheState) (q : List Char) (vp vl : Int) :
    ((searchPath now store cache q vp vl).2.2).all (effClamped vp vl) = true := by
  rw [List.all_eq_true]
  intro e he
  have hm : e ∈ (runPair now cache
      (.searchKey q vp vl)
      (.rows (dbSearchPage store q vl ((vp - 1) * vl)))
      (.selectSearch q vl ((vp - 1) * vl))
      (.searchCountKey q) (.cnt (dbSearchCount store q))
      (.selectSearchCount q)).effs := he
  rcases runPair_effs_mem _ _ _ _ _ _ _ _ e hm with h | h | h | h <;>
    subst h <;> simp [effClamped]

/-- Every success body's pagination block is built by `mkPagination` from the
clamped page and limit. -/
theorem GET_body_shape (now : Nat) (store : List Advocate)
    (cache : CacheState) (req : Request) (b : SuccessBody)
    (h : (GET now store cache req).1.body? = some b) :
    ∃ total, b.pagination =
      mkPagination (clampPage req.page) (clampLimit req.limit) total := by
  rcases req with ⟨search, p, l⟩
  cases search with
  | none =>
    simp only [GET] at h
    obtain ⟨rows, total, hL⟩ := listPath_body now store cache (clampPage p) (clampLimit l)
    rw [hL] at h
    simp only [GetResponse.body?, Option.some.injEq] at h
    exact ⟨total, by rw [← h]⟩
  | some s =>
    simp only [GET] at h
    by_cases ht : (jsTrim s).isEmpty
    · rw [if_pos ht] at h
      obtain ⟨rows, total, hL⟩ := listPath_body now store cache (clampPage p) (clampLimit l)
      rw [hL] at h
      simp only [GetResponse.body?, Option.some.injEq] at h
      exact ⟨total, by rw [← h]⟩
    · rw [if_neg ht] at h
      by_cases hv : (validateSearchQuery s).isValid
      · rw [if_pos hv] at h
        obtain ⟨rows, total, hL⟩ := searchPath_body now store cache
          ((validateSearchQuery s).sanitized.getD []) (clampPage p) (clampLimit l)
        rw [hL] at h
        simp only [GetResponse.body?, Option.some.injEq] at h
        exact ⟨total, by rw [← h]⟩
      · rw [if_neg hv] at h
        simp [GetResponse.body?] at h

/-! ### Cache idempotence machinery -/

theorem runPair_cold (now : Nat) (k1 : CacheKey) (f1 : CacheValue)
    (op1 : StoreOp) (k2 : CacheKey) (f2 : CacheValue) (op2 : StoreOp)
    (hne : ¬ k2 = k1) :
    runPair now [] k1 f1 op1 k2 f2 op2 =
      ⟨f1, f2, [(k2, now, f2), (k1, now, f1)],
        [.cacheLookup k1, .store op1, .cacheLookup k2, .store op2]⟩ := by
  simp [runPair, cachedCall, cacheGet, hne]

theorem runPair_warm (now now2 : Nat) (h2 : now2 < now + 60)
    (k1 : CacheKey) (f1 g1 : CacheValue) (op1 q1 : StoreOp)
    (k2 : CacheKey) (f2 g2 : CacheValue) (op2 q2 : StoreOp)
    (hne : ¬ k2 = k1) :
    runPair now2 [(k2, now, f2), (k1, now, f1)] k1 g1 q1 k2 g2 q2 =
      ⟨f1, f2, [(k2, now, f2), (k1, now, f1)],
        [.cacheLookup k1, .cacheLookup k2]⟩ := by
  have hne' : ¬ k1 = k2 := fun h => hne h.symm
  simp [runPair, cachedCall, cacheGet, hne, hne', h2]

/-! ### The claims -/

/-- C1: for every response the handler returns with a success body, the
pagination metadata satisfies totalPages = ceil(total / limit) (hence
totalPages = 0 when total = 0), hasNext = (page < totalPages) and
hasPrev = (page > 1), where page and limit are the clamped values used for
the fetch and total is the count the count fetch returned. -/
theorem c1_pagination_metadata (now : Nat) (store : List Advocate)
    (cache : CacheState) (req : Request) (b : SuccessBody)
    (h : (GET now store cache req).1.body? = some b) :
    b.pagination.totalPages =
      ⌈(b.pagination.total : ℚ) / (b.pagination.limit : ℚ)⌉₊
    ∧ (b.pagination.total = 0 → b.pagination.totalPages = 0)
    ∧ b.pagination.hasNext =
        decide (b.pagination.page < (b.pagination.totalPages : Int))
    ∧ b.pagination.hasPrev = decide (1 < b.pagination.page) := by
  obtain ⟨total, hb⟩ := GET_body_shape now store cache req b h
  have hlim : 1 ≤ clampLimit req.limit := by
    unfold clampLimit
    omega
  rw [hb]
  refine ⟨?_, ?_, rfl, rfl⟩
  · exact mkPagination_totalPages _ _ total hlim
  · intro h0
    have h0' : total = 0 := h0
    subst h0'
    exact mkPagination_totalPages_zero _ _ hlim

def c1Body : SuccessBody := ⟨demoStore, ⟨1, 10, 2, 1, false, false⟩⟩

/-- Witness for C1 at a concrete request against the demo store. -/
theorem c1_pagination_metadata_witness :
    c1Body.pagination.totalPages =
      ⌈(c1Body.pagination.total : ℚ) / (c1Body.pagination.limit : ℚ)⌉₊
    ∧ (c1Body.pagination.total = 0 → c1Body.pagination.totalPages = 0)
    ∧ c1Body.pagination.hasNext =
        decide (c1Body.pagination.page < (c1Body.pagination.totalPages : Int))
    ∧ c1Body.pagination.hasPrev = decide (1 < c1Body.pagination.page) :=
  c1_pagination_metadata 0 demoStore [] ⟨none, 1, 10⟩ c1Body (by decide)

theorem pow10Int_eq (n : Nat) : pow10Int n = (10 : Int) ^ n := by
  induction n with
  | zero => rfl
  | succ k ih =>
    rw [pow10Int, ih, pow_succ]
    ring

/-- The integer equality check agrees with exact rational equality between
the record's years of experience and the parsed number's value. -/
theorem yearsEq_iff (m e : Int) (y : Nat) :
    yearsEq m e y = decide ((y : ℚ) = jsVal m e) := by
  cases e with
  | ofNat n =>
    rw [Bool.eq_iff_iff]
    simp only [yearsEq, jsVal, pow10Int_eq, beq_iff_eq, decide_eq_true_eq]
    rw [show ((Int.ofNat n : Int) : ℤ) = ((n : ℕ) : ℤ) from rfl, zpow_natCast]
    constructor
    · intro h
      have h2 : ((m * 10 ^ n : ℤ) : ℚ) = ((y : ℤ) : ℚ) := by exact_mod_cast h
      push_cast at h2
      linarith
    · intro h
      have h2 : ((y : ℤ) : ℚ) = ((m * 10 ^ n : ℤ) : ℚ) := by push_cast; linarith
      exact_mod_cast h2.symm
  | negSucc n =>
    rw [Bool.eq_iff_iff]
    simp only [yearsEq, jsVal, pow10Int_eq, beq_iff_eq, decide_eq_true_eq]
    rw [zpow_negSucc]
    have hd : ((10 : ℚ) ^ (n + 1)) ≠ 0 := by positivity
    constructor
    · intro h
      have h2 : (m : ℚ) = (y : ℚ) * 10 ^ (n + 1) := by exact_mod_cast h
      rw [h2]
      field_simp
    · intro h
      have h2 : (y : ℚ) * 10 ^ (n + 1) = (m : ℚ) := by
        rw [h]
        field_simp
      exact_mod_cast h2.symm

/-- C2: if the search string parses entirely as a number (JS `Number`) with
value n = mant × 10 ^ exp, the rows filter is the inclusive OR of the six
substring clauses with exact years-of-experience equality to n; if it does
not parse as a number (NaN), the years clause contributes no matches (it is
constantly false — total, and never matching everything) and the filter is
exactly the substring clauses; the count query applies the same filter. -/
theorem c2_search_predicate (q : List Char) :
    (∀ m e : Int, jsNumber q = .finite m e →
      ∀ a : Advocate, searchWhere q a =
        (textMatch q a || decide ((a.yearsOfExperience : ℚ) = jsVal m e)))
    ∧ (jsNumber q = .nan →
      ∀ a : Advocate, yearsClause q a = false ∧ searchWhere q a = textMatch q a)
    ∧ (∀ a : Advocate, countWhere q a = searchWhere q a)
    ∧ (∀ store : List Advocate,
        dbSearchCount store q = (store.filter (searchWhere q)).length) := by
  refine ⟨?_, ?_, fun a => rfl, fun store => rfl⟩
  · intro m e hn a
    simp only [searchWhere, textMatch, yearsClause, hn, yearsEq_iff]
    simp [Bool.or_assoc]
  · intro hn a
    constructor
    · simp only [yearsClause, hn]
    · simp only [searchWhere, textMatch, yearsClause, hn]
      simp [Bool.or_assoc]

/-- Witness for C2: the numeric string "7" and the non-numeric "abc". -/
theorem c2_search_predicate_witness :
    searchWhere ("7".data) advA =
      (textMatch ("7".data) advA ||
        decide ((advA.yearsOfExperience : ℚ) = jsVal 7 0))
    ∧ yearsClause ("abc".data) advA = false :=
  ⟨(c2_search_predicate ("7".data)).1 7 0 (by decide) advA,
   ((c2_search_predicate ("abc".data)).2.1 (by decide) advA).1⟩

/-- C3: every non-blank search string the validator rejects yields the
error envelope (error reason plus generic message) with status 400, the
cache unchanged and no effects at all — no store access, no cache access. -/
theorem c3_validation_rejects (now : Nat) (store : List Advocate)
    (cache : CacheState) (p l : Int) (s : List Char)
    (ht : (jsTrim s).isEmpty = false)
    (hv : (validateSearchQuery s).isValid = false) :
    GET now store cache ⟨some s, p, l⟩ =
      (.badRequest (validateSearchQuery s).error "Invalid search query provided",
        cache, [])
    ∧ (GET now store cache ⟨some s, p, l⟩).1.status = 400 := by
  constructor
  · simp [GET, ht, hv]
  · simp [GET, ht, hv, GetResponse.status]

/-- Witness for C3: the deny-listed query "DROP TABLE x". -/
theorem c3_validation_rejects_witness :
    GET 0 demoStore [] ⟨some ("DROP TABLE x".data), 1, 10⟩ =
      (.badRequest (validateSearchQuery ("DROP TABLE x".data)).error
        "Invalid search query provided", [], [])
    ∧ (GET 0 demoStore [] ⟨some ("DROP TABLE x".data), 1, 10⟩).1.status = 400 :=
  c3_validation_rejects 0 demoStore [] 1 10 ("DROP TABLE x".data)
    (by decide) (by decide)

/-- C4: the clamping arithmetic (page into [1, 120000], limit into
[10, 100], below-floor raised, above-ceiling lowered), and the clamped
values are the ones used by every fetch (limit/offset of the store queries,
page/limit of the cache keys) and returned in the pagination envelope. -/
theorem c4_clamping (p l : Int) (now : Nat) (store : List Advocate)
    (cache : CacheState) (req : Request) :
    (1 ≤ clampPage p ∧ clampPage p ≤ 120000
      ∧ (p < 1 → clampPage p = 1)
      ∧ (1 ≤ p → p ≤ 120000 → clampPage p = p)
      ∧ 10 ≤ clampLimit l ∧ clampLimit l ≤ 100
      ∧ (l < 10 → clampLimit l = 10)
      ∧ (100 < l → clampLimit l = 100)
      ∧ (10 ≤ l → l ≤ 100 → clampLimit l = l))
    ∧ ((GET now store cache req).2.2).all
        (effClamped (clampPage req.page) (clampLimit req.limit)) = true
    ∧ ((GET now store cache req).1.body?.all
        (fun b => b.pagination.page == clampPage req.page &&
          b.pagination.limit == clampLimit req.limit)) = true := by
  refine ⟨?_, ?_, ?_⟩
  · unfold clampPage clampLimit
    omega
  · rcases req with ⟨search, pp, ll⟩
    cases search with
    | none => exact listPath_all_effClamped now store cache _ _
    | some s =>
      by_cases ht : (jsTrim s).isEmpty = true
      · simp only [GET]
        rw [if_pos ht]
        exact listPath_all_effClamped now store cache _ _
      · by_cases hv : (validateSearchQuery s).isValid = true
        · simp only [GET]
          rw [if_neg ht, if_pos hv]
          exact searchPath_all_effClamped now store cache _ _ _
        · simp only [GET]
          rw [if_neg ht, if_neg hv]
          rfl
  · rcases req with ⟨search, pp, ll⟩
    cases search with
    | none =>
      obtain ⟨rows, total, hL⟩ :=
        listPath_body now store cache (clampPage pp) (clampLimit ll)
      simp only [GET]
      rw [hL]
      simp [GetResponse.body?, mkPagination]
    | some s =>
      by_cases ht : (jsTrim s).isEmpty = true
      · obtain ⟨rows, total, hL⟩ :=
          listPath_body now store cache (clampPage pp) (clampLimit ll)
        simp only [GET]
        rw [if_pos ht, hL]
        simp [GetResponse.body?, mkPagination]
      · by_cases hv : (validateSearchQuery s).isValid = true
        · obtain ⟨rows, total, hL⟩ :=
            searchPath_body now store cache
              ((validateSearchQuery s).sanitized.getD [])
              (clampPage pp) (clampLimit ll)
          simp only [GET]
          rw [if_neg ht, if_pos hv, hL]
          simp [GetResponse.body?, mkPagination]
        · simp only [GET]
          rw [if_neg ht, if_neg hv]
          rfl

/-- Witness for C4: a below-floor page and a below-floor limit are raised. -/
theorem c4_clamping_witness : clampPage 0 = 1 ∧ clampLimit 3 = 10 :=
  ⟨(c4_clamping 0 3 0 demoStore [] ⟨none, 0, 3⟩).1.2.2.1 (by omega),
   (c4_clamping 0 3 0 demoStore [] ⟨none, 0, 3⟩).1.2.2.2.2.2.2.1 (by omega)⟩

/-- Counterexample to C5 as stated: a string whose control-stripped length is
102 (> 100), but whose sanitized form has length 1, not exactly 100 — the
whitespace-collapsing and trimming steps run after the truncation. -/
theorem c5_counterexample :
    100 < (stripControl ('a' :: List.replicate 101 ' ')).length
    ∧ (sanitizeSearchQuery ('a' :: List.replicate 101 ' ')).length ≠ 100 := by
  decide

/-- C5 (amended): for inputs whose control-stripped length exceeds 100, the
truncation step yields exactly 100 characters, and the sanitizer's output has
AT MOST 100 characters (later whitespace collapsing/trimming may shorten). -/
theorem c5_amended_truncation (s : List Char)
    (h : 100 < (stripControl s).length) :
    ((stripControl s).take 100).length = 100
    ∧ (sanitizeSearchQuery s).length ≤ 100 := by
  constructor
  · simp only [List.length_take]
    omega
  · exact sanitize_length_le s

/-- Witness for amended C5: 101 letters. -/
theorem c5_amended_truncation_witness :
    ((stripControl (List.replicate 101 'a')).take 100).length = 100
    ∧ (sanitizeSearchQuery (List.replicate 101 'a')).length ≤ 100 :=
  c5_amended_truncation (List.replicate 101 'a') (by decide)

/-- C6: a blank (all-whitespace) search parameter takes the very same
list-all path as an absent one — the whole result (response, cache,
effects) is identical, and the response is a success (never a validation
rejection). -/
theorem c6_blank_search_lists_all (now : Nat) (store : List Advocate)
    (cache : CacheState) (p l : Int) (s : List Char)
    (hb : (jsTrim s).isEmpty = true) :
    GET now store cache ⟨some s, p, l⟩ = GET now store cache ⟨none, p, l⟩
    ∧ (GET now store cache ⟨some s, p, l⟩).1.isSuccess = true := by
  constructor
  · simp [GET, hb]
  · simp [GET, hb, listPath, GetResponse.isSuccess]

/-- Witness for C6: three spaces. -/
theorem c6_blank_search_lists_all_witness :
    GET 0 demoStore [] ⟨some ("   ".data), 2, 50⟩ =
      GET 0 demoStore [] ⟨none, 2, 50⟩
    ∧ (GET 0 demoStore [] ⟨some ("   ".data), 2, 50⟩).1.isSuccess = true :=
  c6_blank_search_lists_all 0 demoStore [] 2 50 ("   ".data) (by decide)

theorem listPath_idem (now now2 : Nat) (store : List Advocate) (vp vl : Int)
    (h2 : now2 < now + 60) :
    (listPath now2 store (listPath now store [] vp vl).2.1 vp vl).1 =
      (listPath now store [] vp vl).1
    ∧ ((listPath now2 store (listPath now store [] vp vl).2.1 vp vl).2.2).all
        (fun e => !e.isStore) = true := by
  have hne : ¬ (CacheKey.advocatesCount = CacheKey.allAdvocates vp vl) := by simp
  have hcold := runPair_cold now (CacheKey.allAdvocates vp vl)
    (.rows (dbSelectPage store vl ((vp - 1) * vl))) (.selectPage vl ((vp - 1) * vl))
    .advocatesCount (.cnt (dbCountAll store)) .selectCount hne
  have hwarm := runPair_warm now now2 h2 (CacheKey.allAdvocates vp vl)
    (.rows (dbSelectPage store vl ((vp - 1) * vl)))
    (.rows (dbSelectPage store vl ((vp - 1) * vl)))
    (.selectPage vl ((vp - 1) * vl)) (.selectPage vl ((vp - 1) * vl))
    .advocatesCount (.cnt (dbCountAll store)) (.cnt (dbCountAll store))
    .selectCount .selectCount hne
  refine ⟨?_, ?_⟩ <;> simp [listPath, hcold, hwarm, Eff.isStore]

theorem searchPath_idem (now now2 : Nat) (store : List Advocate)
    (q : List Char) (vp vl : Int) (h2 : now2 < now + 60) :
    (searchPath now2 store (searchPath now store [] q vp vl).2.1 q vp vl).1 =
      (searchPath now store [] q vp vl).1
    ∧ ((searchPath now2 store (searchPath now store [] q vp vl).2.1 q vp vl).2.2).all
        (fun e => !e.isStore) = true := by
  have hne : ¬ (CacheKey.searchCountKey q = CacheKey.searchKey q vp vl) := by simp
  have hcold := runPair_cold now (CacheKey.searchKey q vp vl)
    (.rows (dbSearchPage store q vl ((vp - 1) * vl)))
    (.selectSearch q vl ((vp - 1) * vl))
    (.searchCountKey q) (.cnt (dbSearchCount store q)) (.selectSearchCount q) hne
  have hwarm := runPair_warm now now2 h2 (CacheKey.searchKey q vp vl)
    (.rows (dbSearchPage store q vl ((vp - 1) * vl)))
    (.rows (dbSearchPage store q vl ((vp - 1) * vl)))
    (.selectSearch q vl ((vp - 1) * vl)) (.selectSearch q vl ((vp - 1) * vl))
    (.searchCountKey q) (.cnt (dbSearchCount store q)) (.cnt (dbSearchCount store q))
    (.selectSearchCount q) (.selectSearchCount q) hne
  refine ⟨?_, ?_⟩ <;> simp [searchPath, hcold, hwarm, Eff.isStore]

/-- C7: repeating the identical request within the cache TTL (60), starting
from a cache with no prior entries, returns the identical response (same
data and pagination) and issues no store access at all on the second run —
it is served from the entries the first run populated. -/
theorem c7_cache_idempotence (store : List Advocate) (req : Request)
    (now now2 : Nat) (h1 : now ≤ now2) (h2 : now2 < now + 60) :
    (GET now2 store (GET now store [] req).2.1 req).1 =
      (GET now store [] req).1
    ∧ ((GET now2 store (GET now store [] req).2.1 req).2.2).all
        (fun e => !e.isStore) = true := by
  rcases req with ⟨search, p, l⟩
  cases search with
  | none =>
    simp only [GET]
    exact listPath_idem now now2 store (clampPage p) (clampLimit l) h2
  | some s =>
    by_cases ht : (jsTrim s).isEmpty = true
    · have e : ∀ (t : Nat) (c : CacheState), GET t store c ⟨some s, p, l⟩ =
          listPath t store c (clampPage p) (clampLimit l) := by
        intro t c
        simp [GET, ht]
      simp only [e]
      exact listPath_idem now now2 store (clampPage p) (clampLimit l) h2
    · by_cases hv : (validateSearchQuery s).isValid = true
      · have hsan := (validateSearchQuery_valid s hv).2.1
        have e : ∀ (t : Nat) (c : CacheState), GET t store c ⟨some s, p, l⟩ =
            searchPath t store c (sanitizeSearchQuery s)
              (clampPage p) (clampLimit l) := by
          intro t c
          simp [GET, ht, hv, hsan]
        simp only [e]
        exact searchPath_idem now now2 store (sanitizeSearchQuery s)
          (clampPage p) (clampLimit l) h2
      · have e : ∀ (t : Nat) (c : CacheState), GET t store c ⟨some s, p, l⟩ =
            (.badRequest (validateSearchQuery s).error
              "Invalid search query provided", c, []) := by
          intro t c
          simp [GET, ht, hv]
        simp only [e]
        exact ⟨trivial, rfl⟩

/-- Witness for C7: the same search repeated after 30 time units. -/
theorem c7_cache_idempotence_witness :
    (GET 30 demoStore (GET 0 demoStore [] ⟨some ("smith".data), 1, 10⟩).2.1
        ⟨some ("smith".data), 1, 10⟩).1 =
      (GET 0 demoStore [] ⟨some ("smith".data), 1, 10⟩).1
    ∧ ((GET 30 demoStore (GET 0 demoStore [] ⟨some ("smith".data), 1, 10⟩).2.1
        ⟨some ("smith".data), 1, 10⟩).2.2).all (fun e => !e.isStore) = true :=
  c7_cache_idempotence demoStore ⟨some ("smith".data), 1, 10⟩ 0 30
    (by omega) (by omega)

/-- C8: two raw search strings that sanitize to the same text (and both
pass validation) produce the very same handler result — same store queries,
same cache keys, same data and pagination: everything downstream is keyed
by the sanitized text, never the raw text. -/
theorem c8_keyed_by_sanitized (now : Nat) (store : List Advocate)
    (cache : CacheState) (p l : Int) (r1 r2 : List Char)
    (h1 : (validateSearchQuery r1).isValid = true)
    (h2 : (validateSearchQuery r2).isValid = true)
    (hs : sanitizeSearchQuery r1 = sanitizeSearchQuery r2) :
    GET now store cache ⟨some r1, p, l⟩ = GET now store cache ⟨some r2, p, l⟩ := by
  obtain ⟨ht1, hsan1, _⟩ := validateSearchQuery_valid r1 h1
  obtain ⟨ht2, hsan2, _⟩ := validateSearchQuery_valid r2 h2
  have e1 : GET now store cache ⟨some r1, p, l⟩ =
      searchPath now store cache (sanitizeSearchQuery r1)
        (clampPage p) (clampLimit l) := by
    simp [GET, ht1, h1, hsan1]
  have e2 : GET now store cache ⟨some r2, p, l⟩ =
      searchPath now store cache (sanitizeSearchQuery r2)
        (clampPage p) (clampLimit l) := by
    simp [GET, ht2, h2, hsan2]
  rw [e1, e2, hs]

/-- Witness for C8: "smith" and " smith " sanitize identically. -/
theorem c8_keyed_by_sanitized_witness :
    GET 0 demoStore [] ⟨some ("smith".data), 1, 10⟩ =
      GET 0 demoStore [] ⟨some (" smith ".data), 1, 10⟩ :=
  c8_keyed_by_sanitized 0 demoStore [] 1 10 ("smith".data) (" smith ".data)
    (by decide) (by decide) (by decide)

/-- C9: every search query that reaches a store query (or a search cache
key) in any run of the handler is non-empty, at most 100 characters,
control-character free, has no whitespace run of length ≥ 2, and no leading
or trailing whitespace. -/
theorem c9_store_query_invariant (now : Nat) (store : List Advocate)
    (cache : CacheState) (req : Request) :
    ((GET now store cache req).2.2).all searchEffClean = true := by
  rcases req with ⟨search, p, l⟩
  cases search with
  | none => exact listPath_all_searchEffClean now store cache _ _
  | some s =>
    by_cases ht : (jsTrim s).isEmpty = true
    · simp only [GET]
      rw [if_pos ht]
      exact listPath_all_searchEffClean now store cache _ _
    · by_cases hv : (validateSearchQuery s).isValid = true
      · obtain ⟨_, hsan, hlen⟩ := validateSearchQuery_valid s hv
        simp only [GET]
        rw [if_neg ht, if_pos hv, hsan]
        exact searchPath_all_searchEffClean now store cache _ _ _
          (cleanQuery_sanitize s hlen)
      · simp only [GET]
        rw [if_neg ht, if_neg hv]
        rfl

/-- C10: the deny-list check runs on the RAW input before sanitization, so
the raw string with a control byte inside the keyword passes validation,
its sanitized form is exactly the deny-listed "DROP TABLE x", and that text
is what reaches the store queries. -/
theorem c10_deny_list_on_raw :
    (validateSearchQuery ("DRO\x01P TABLE x".data)).isValid = true
    ∧ (validateSearchQuery ("DRO\x01P TABLE x".data)).sanitized =
        some ("DROP TABLE x".data)
    ∧ hasMaliciousPattern ("DROP TABLE x".data) = true
    ∧ Eff.store (.selectSearch ("DROP TABLE x".data) 10 0) ∈
        (GET 0 demoStore [] ⟨some ("DRO\x01P TABLE x".data), 1, 10⟩).2.2
    ∧ Eff.store (.selectSearchCount ("DROP TABLE x".data)) ∈
        (GET 0 demoStore [] ⟨some ("DRO\x01P TABLE x".data), 1, 10⟩).2.2 := by
  decide

end AdvocatesApi
